import Mathlib

/-!
Shallow embedding of the `actionkv` log-structured key/value store
(`src/lib.rs`).  Bytes are modelled as `Nat` (values below 256 when they
come from a real file); byte streams are `List Nat`; the in-memory
`HashMap<ByteString, u64>` index is modelled extensionally as a function
`List Nat → Option Nat`.  Machine integers are `Nat` with explicit
`% 2^32` where the Rust code casts to or computes in `u32`.

`process_record` panics (Rust `panic!` / `Vec::split_off` out-of-bounds)
in some branches; panics are modelled as dedicated result constructors,
distinct from the `io::Error` values the function can also return
(`UnexpectedEof` from byteorder's `read_u32`, which uses `read_exact`
semantics: both an empty stream and a partially filled header buffer
yield `ErrorKind::UnexpectedEof`).
-/

namespace ActionKV

/-- A byte string (`Vec<u8>` / `[u8]`). -/
abbrev ByteString := List Nat

/-- The four little-endian bytes of the low 32 bits of `n`:
what `write_u32::<LittleEndian>` emits. -/
def u32le (n : Nat) : ByteString :=
  [n % 256, n / 256 % 256, n / 65536 % 256, n / 16777216 % 256]

/-- `read_u32::<LittleEndian>`: reads four bytes (via `read_exact`) and
recombines them; `none` models `ErrorKind::UnexpectedEof`, raised both
when the stream is already exhausted and when it ends mid-word. -/
def readU32 : ByteString → Option (Nat × ByteString)
  | b0 :: b1 :: b2 :: b3 :: rest =>
      some (b0 + 256 * b1 + 65536 * b2 + 16777216 * b3, rest)
  | _ => none

/-- The CRC-32 (IEEE) reflected polynomial `0xEDB88320`. -/
def crc32Poly : Nat := 0xEDB88320

/-- One bit-step of the reflected CRC-32 algorithm. -/
def crc32Step (crc : Nat) : Nat :=
  if crc % 2 = 1 then (crc / 2) ^^^ crc32Poly else crc / 2

/-- Fold one input byte (a `u8`, hence the `% 256`) into the running CRC. -/
def crc32Update (crc b : Nat) : Nat :=
  crc32Step^[8] (crc ^^^ b % 256)

/-- `crc::crc32::checksum_ieee` over a byte slice. -/
def crc32 (data : ByteString) : Nat :=
  (data.foldl crc32Update 0xFFFFFFFF) ^^^ 0xFFFFFFFF

/-- `KeyValuePair { key, value }`. -/
structure KeyValuePair where
  key : ByteString
  value : ByteString
deriving DecidableEq, Repr

/-- Result of `ActionKV::process_record`.  `ok` carries the decoded pair
and the unconsumed rest of the stream; `eofErr` is a returned
`io::Error` of kind `UnexpectedEof`; `corruptionPanic` models the
`panic!("data corruption encountered …")` carrying the computed and the
stored checksum; `splitPanic` models the out-of-bounds panic of
`data.split_off(key_len as usize)` when `key_len` exceeds the bytes
actually read. -/
inductive PRResult where
  | ok (kv : KeyValuePair) (rest : ByteString)
  | eofErr
  | corruptionPanic (checksum saved : Nat)
  | splitPanic
deriving DecidableEq, Repr

/-- `ActionKV::process_record` on an in-memory byte stream.  Mirrors
`src/lib.rs` lines 35–56: three little-endian `u32` header reads, a
`u32` (wrapping) payload-length sum, a `take(data_len).read_to_end`
that reads *up to* `data_len` bytes without failing on short streams,
the checksum comparison that panics on mismatch, and the
`split_off(key_len)` that separates key from value. -/
def process_record (s : ByteString) : PRResult :=
  match readU32 s with
  | none => .eofErr
  | some (saved_checksum, s1) =>
    match readU32 s1 with
    | none => .eofErr
    | some (key_len, s2) =>
      match readU32 s2 with
      | none => .eofErr
      | some (value_len, s3) =>
        let data_len := (key_len + value_len) % 4294967296
        let data := s3.take data_len
        let checksum := crc32 data
        if checksum ≠ saved_checksum then
          .corruptionPanic checksum saved_checksum
        else if key_len ≤ data.length then
          .ok ⟨data.take key_len, data.drop key_len⟩ (s3.drop data_len)
        else
          .splitPanic

/-- The byte string written by one record append
(`insert_but_ignore_index`, `src/lib.rs` lines 128–147): checksum,
key length and value length as little-endian `u32` (`key_len as u32`
wraps modulo `2^32`), then the raw key and value bytes. -/
def encode (key value : ByteString) : ByteString :=
  u32le (crc32 (key ++ value)) ++ u32le key.length ++ u32le value.length ++
    key ++ value

/-- A successful `readU32` consumes exactly four bytes.
(Part of the definition layer: used by `load`'s termination argument.) -/
def readU32_length : ∀ (s : ByteString) (n : Nat) (r : ByteString),
    readU32 s = some (n, r) → s.length = 4 + r.length := by
  intro s n r h
  unfold readU32 at h
  split at h
  · simp only [Option.some.injEq, Prod.mk.injEq] at h
    simp [← h.2]
    omega
  · exact absurd h (by simp)

/-- A successful `process_record` consumes at least the 12 header bytes.
(Part of the definition layer: used by `load`'s termination argument.) -/
def process_record_ok_length : ∀ (s : ByteString) (kv : KeyValuePair)
    (rest : ByteString), process_record s = .ok kv rest →
    12 + rest.length ≤ s.length := by
  intro s kv rest h
  unfold process_record at h
  simp only [ne_eq] at h
  split at h
  · exact absurd h (by simp)
  next n1 s1 h1 =>
    split at h
    · exact absurd h (by simp)
    next n2 s2 h2 =>
      split at h
      · exact absurd h (by simp)
      next n3 s3 h3 =>
        split at h
        · exact absurd h (by simp)
        · split at h
          · simp only [PRResult.ok.injEq] at h
            have hr : rest = s3.drop ((n2 + n3) % 4294967296) := h.2.symm
            have l1 := readU32_length s n1 s1 h1
            have l2 := readU32_length s1 n2 s2 h2
            have l3 := readU32_length s2 n3 s3 h3
            have hrl : rest.length = (s3.drop ((n2 + n3) % 4294967296)).length :=
              by rw [hr]
            have hd : (s3.drop ((n2 + n3) % 4294967296)).length ≤ s3.length :=
              by simp [List.length_drop]
            omega
          · exact absurd h (by simp)

/-- The in-memory index: `HashMap<ByteString, u64>`, modelled
extensionally. -/
def Index := ByteString → Option Nat

/-- `HashMap::new()`. -/
def emptyIndex : Index := fun _ => none

/-- `HashMap::insert`: overwrites any previous binding of `k`. -/
def indexInsert (idx : Index) (k : ByteString) (pos : Nat) : Index :=
  fun k' => if k' = k then some pos else idx k'

/-- Result of `ActionKV::load`: either a rebuilt index, or one of the
two panics that `process_record` can raise.  (`load` turns
`UnexpectedEof` into normal termination; in the in-memory model no
other `io::Error` can occur.) -/
inductive LoadResult where
  | ok (index : Index)
  | corruptionPanic (checksum saved : Nat)
  | splitPanic

/-- `ActionKV::load` (`src/lib.rs` lines 62–81), replaying the file
from byte position `pos` (the read cursor, 0 right after `open`):
record the current position, decode one record, break normally on
`UnexpectedEof`, and on success map the key to the record's start
position — overwriting earlier bindings — and continue. -/
def load (file : ByteString) (pos : Nat) (idx : Index) : LoadResult :=
  match h : process_record (file.drop pos) with
  | .eofErr => .ok idx
  | .corruptionPanic c sv => .corruptionPanic c sv
  | .splitPanic => .splitPanic
  | .ok kv rest =>
      load file (pos + ((file.drop pos).length - rest.length))
        (indexInsert idx kv.key pos)
termination_by file.length - pos
decreasing_by
  have h12 := process_record_ok_length _ _ _ h
  have hd : (file.drop pos).length = file.length - pos := by
    simp [List.length_drop]
  omega

/-- The store: backing file contents plus in-memory index. -/
structure Store where
  file : ByteString
  index : Index

/-- `ActionKV::open` on a file with the given contents: the index
starts empty. -/
def openStore (contents : ByteString) : Store := ⟨contents, emptyIndex⟩

/-- Result of `ActionKV::get`: `ok` is the `Ok` return (with `none` for
an index miss); `eofErr` is a returned `Err` of kind `UnexpectedEof`
propagated from `process_record` by `?`; the panics abort instead of
returning. -/
inductive GetResult where
  | ok (value : Option ByteString)
  | eofErr
  | corruptionPanic (checksum saved : Nat)
  | splitPanic
deriving DecidableEq, Repr

/-- `ActionKV::get` (`src/lib.rs` lines 83–90): index miss returns
`Ok(None)`; otherwise decode the record at the recorded position
(`get_at`) and return its value. -/
def get (s : Store) (key : ByteString) : GetResult :=
  match s.index key with
  | none => .ok none
  | some pos =>
    match process_record (s.file.drop pos) with
    | .ok kv _ => .ok (some kv.value)
    | .eofErr => .eofErr
    | .corruptionPanic c sv => .corruptionPanic c sv
    | .splitPanic => .splitPanic

/-- Result of `ActionKV::find`. -/
inductive FindResult where
  | found (kv : KeyValuePair)
  | notFound
  | corruptionPanic (checksum saved : Nat)
  | splitPanic
deriving DecidableEq, Repr

/-- `ActionKV::find` (`src/lib.rs` lines 98–120), with the current read
cursor made explicit as `pos`: decode one record at the cursor; if its
value equals `target` return it, otherwise `break` out of the loop and
return `Ok(None)`; `UnexpectedEof` also returns `Ok(None)`.  The loop
body exits the loop on every path, so only the first record is ever
examined. -/
def find (file : ByteString) (pos : Nat) (target : ByteString) :
    FindResult :=
  match process_record (file.drop pos) with
  | .ok kv _ => if kv.value = target then .found kv else .notFound
  | .eofErr => .notFound
  | .corruptionPanic c sv => .corruptionPanic c sv
  | .splitPanic => .splitPanic

/-- `ActionKV::insert_but_ignore_index` (`src/lib.rs` lines 128–147):
append the encoded record at end-of-file and return the position it
was written at. -/
def insert_but_ignore_index (s : Store) (key value : ByteString) :
    Store × Nat :=
  (⟨s.file ++ encode key value, s.index⟩, s.file.length)

/-- `ActionKV::insert` (`src/lib.rs` lines 122–126): append, then point
the index entry for `key` at the new record. -/
def insert (s : Store) (key value : ByteString) : Store :=
  let r := insert_but_ignore_index s key value
  ⟨r.1.file, indexInsert r.1.index key r.2⟩

/-- `ActionKV::update` (`src/lib.rs` lines 149–151): delegates to
`insert`. -/
def update (s : Store) (key value : ByteString) : Store :=
  insert s key value

/-- `ActionKV::delete` (`src/lib.rs` lines 153–156): `insert` with the
empty value `b""`. -/
def delete (s : Store) (key : ByteString) : Store :=
  insert s key []

/-- A key of `2^32` zero bytes, whose length does not fit in a `u32`. -/
def bigKey : ByteString := List.replicate 4294967296 0

/-- A record stream whose stored checksum (`0`) does not match the
CRC-32 of its one-byte payload (key `[0]`, empty value). -/
def corruptStream : ByteString := u32le 0 ++ u32le 1 ++ u32le 0 ++ [0]

/-- A store whose index points key `[0]` at the corrupt record. -/
def corruptStore : Store := ⟨corruptStream, indexInsert emptyIndex [0] 0⟩

/-! ### Helper lemmas -/

theorem u32le_length (n : Nat) : (u32le n).length = 4 := rfl

theorem readU32_u32le (n : Nat) (r : ByteString) :
    readU32 (u32le n ++ r) = some (n % 4294967296, r) := by
  have h : n % 256 + 256 * (n / 256 % 256) + 65536 * (n / 65536 % 256) +
      16777216 * (n / 16777216 % 256) = n % 4294967296 := by omega
  simp [u32le, readU32, h]

theorem readU32_short (s : ByteString) (h : s.length < 4) :
    readU32 s = none := by
  unfold readU32
  split
  · simp at h
    omega
  · rfl

theorem xor_lt_u32 (a b : Nat) (ha : a < 4294967296) (hb : b < 4294967296) :
    a ^^^ b < 4294967296 := by
  have h32 : (4294967296 : Nat) = 2 ^ 32 := by norm_num
  rw [h32] at ha hb ⊢
  have := Nat.bitwise_lt (f := bne) ha hb
  simpa [Nat.xor] using this

theorem crc32Step_lt (c : Nat) (h : c < 4294967296) :
    crc32Step c < 4294967296 := by
  unfold crc32Step
  split
  · exact xor_lt_u32 _ _ (by omega) (by norm_num [crc32Poly])
  · omega

theorem crc32Step_iter_lt (k c : Nat) (h : c < 4294967296) :
    crc32Step^[k] c < 4294967296 := by
  induction k generalizing c with
  | zero => exact h
  | succ k ih =>
    rw [Function.iterate_succ_apply]
    exact ih _ (crc32Step_lt c h)

theorem crc32Update_lt (c b : Nat) (h : c < 4294967296) :
    crc32Update c b < 4294967296 :=
  crc32Step_iter_lt 8 _ (xor_lt_u32 _ _ h (by omega))

theorem crc32_lt (data : ByteString) : crc32 data < 4294967296 := by
  unfold crc32
  have hf : ∀ (l : ByteString) (c : Nat), c < 4294967296 →
      l.foldl crc32Update c < 4294967296 := by
    intro l
    induction l with
    | nil => intro c hc; exact hc
    | cons b t ih =>
      intro c hc
      exact ih _ (crc32Update_lt c b hc)
  exact xor_lt_u32 _ _ (hf data _ (by norm_num)) (by norm_num)

theorem crc32_nil : crc32 [] = 0 := by decide

/-- Full symbolic evaluation of `process_record` on a stream carrying a
12-byte header followed by `tail`. -/
theorem process_record_header (c a b : Nat) (tail : ByteString) :
    process_record (u32le c ++ (u32le a ++ (u32le b ++ tail))) =
      if crc32 (tail.take ((a % 4294967296 + b % 4294967296) % 4294967296))
          ≠ c % 4294967296 then
        .corruptionPanic
          (crc32 (tail.take ((a % 4294967296 + b % 4294967296) % 4294967296)))
          (c % 4294967296)
      else if a % 4294967296 ≤
          (tail.take ((a % 4294967296 + b % 4294967296) % 4294967296)).length
        then
        .ok ⟨(tail.take ((a % 4294967296 + b % 4294967296) % 4294967296)).take
              (a % 4294967296),
             (tail.take ((a % 4294967296 + b % 4294967296) % 4294967296)).drop
              (a % 4294967296)⟩
          (tail.drop ((a % 4294967296 + b % 4294967296) % 4294967296))
      else .splitPanic := by
  unfold process_record
  simp only [readU32_u32le]

/-- Round-trip helper: decoding an encoded record (with any trailing
bytes) succeeds and returns the original key and value, provided the
total payload length fits in a `u32`. -/
theorem process_record_encode (k v r : ByteString)
    (h : k.length + v.length < 4294967296) :
    process_record (encode k v ++ r) = .ok ⟨k, v⟩ r := by
  have hk : k.length % 4294967296 = k.length := Nat.mod_eq_of_lt (by omega)
  have hv : v.length % 4294967296 = v.length := Nat.mod_eq_of_lt (by omega)
  have hc : crc32 (k ++ v) % 4294967296 = crc32 (k ++ v) :=
    Nat.mod_eq_of_lt (crc32_lt _)
  have hshape : encode k v ++ r =
      u32le (crc32 (k ++ v)) ++
        (u32le k.length ++ (u32le v.length ++ ((k ++ v) ++ r))) := by
    simp [encode, List.append_assoc]
  rw [hshape, process_record_header, hk, hv, hc]
  have hsum : (k.length + v.length) % 4294967296 = (k ++ v).length := by
    rw [List.length_append]
    exact Nat.mod_eq_of_lt h
  rw [hsum]
  simp only [List.take_left, List.drop_left]
  rw [if_neg (by simp)]
  rw [if_pos (by rw [List.length_append]; omega)]

/-- Any stream shorter than the 12-byte header makes `process_record`
return the `UnexpectedEof` error — the same result as on an empty
stream. -/
theorem process_record_short (s : ByteString) (h : s.length < 12) :
    process_record s = .eofErr := by
  unfold process_record
  split
  · rfl
  next n1 s1 h1 =>
    have l1 := readU32_length _ _ _ h1
    split
    · rfl
    next n2 s2 h2 =>
      have l2 := readU32_length _ _ _ h2
      rw [readU32_short s2 (by omega)]

theorem load_of_eof (file : ByteString) (pos : Nat) (idx : Index)
    (h : process_record (file.drop pos) = .eofErr) :
    load file pos idx = .ok idx := by
  rw [load, h]

theorem load_of_ok (file : ByteString) (pos : Nat) (idx : Index)
    (kv : KeyValuePair) (rest : ByteString)
    (h : process_record (file.drop pos) = .ok kv rest) :
    load file pos idx =
      load file (pos + ((file.drop pos).length - rest.length))
        (indexInsert idx kv.key pos) := by
  rw [load, h]

theorem load_of_corrupt (file : ByteString) (pos : Nat) (idx : Index)
    (c sv : Nat) (h : process_record (file.drop pos) = .corruptionPanic c sv) :
    load file pos idx = .corruptionPanic c sv := by
  rw [load, h]

theorem u32le_mod (n : Nat) : u32le n = u32le (n % 4294967296) := by
  unfold u32le
  have h1 : n % 256 = n % 4294967296 % 256 := by omega
  have h2 : n / 256 % 256 = n % 4294967296 / 256 % 256 := by omega
  have h3 : n / 65536 % 256 = n % 4294967296 / 65536 % 256 := by omega
  have h4 : n / 16777216 % 256 = n % 4294967296 / 16777216 % 256 := by omega
  rw [h1, h2, h3, h4]

theorem encode_length (k v : ByteString) :
    (encode k v).length = 12 + k.length + v.length := by
  simp [encode, u32le]
  omega

/-- `get` right after `insert` of the same key returns the inserted
value (payload small enough for the `u32` header fields). -/
theorem get_insert_self (s : Store) (k v : ByteString)
    (h : k.length + v.length < 4294967296) :
    get (insert s k v) k = .ok (some v) := by
  have e : process_record (encode k v) = .ok ⟨k, v⟩ [] := by
    have h0 := process_record_encode k v [] h
    simpa using h0
  simp [get, insert, insert_but_ignore_index, indexInsert, e]

/-! ### Claim theorems -/

/-- C1 (amended): for every key and value whose total length is below
`2^32`, encoding the pair into a record — 12-byte little-endian header
of checksum, key length and value length, followed by key then value
with no padding — and decoding that byte stream yields the original
key, the original value, and a checksum matching CRC-32 over key ++
value.  (As stated over *all* byte sequences the claim fails: the
length fields wrap modulo `2^32`, see `C1` counterexample.) -/
theorem C1_roundtrip (k v : ByteString)
    (h : k.length + v.length < 4294967296) :
    process_record (encode k v) = .ok ⟨k, v⟩ [] ∧
    (encode k v).take 4 = u32le (crc32 (k ++ v)) ∧
    encode k v = u32le (crc32 (k ++ v)) ++ u32le k.length ++
      u32le v.length ++ k ++ v ∧
    (encode k v).length = 12 + k.length + v.length := by
  refine ⟨?_, ?_, rfl, encode_length k v⟩
  · have h0 := process_record_encode k v [] h
    simpa using h0
  · rw [show encode k v = u32le (crc32 (k ++ v)) ++
        (u32le k.length ++ (u32le v.length ++ (k ++ v))) from rfl]
    exact List.take_left' rfl

/-- Witness for C1 at a concrete key and value. -/
theorem C1_roundtrip_witness :
    process_record (encode [1, 2] [3]) = .ok ⟨[1, 2], [3]⟩ [] :=
  (C1_roundtrip [1, 2] [3] (by decide)).1

/-- C1 fails as literally stated ("for every key byte sequence"): for a
key of `2^32` bytes the stored key length wraps to `0`, so decoding the
encoded record never returns the original key. -/
theorem C1_roundtrip_counterexample :
    ¬ ∃ rest, process_record (encode bigKey []) = .ok ⟨bigKey, []⟩ rest := by
  rintro ⟨rest, h⟩
  have hlen : bigKey.length = 4294967296 := by
    rw [bigKey, List.length_replicate]
  have hshape : encode bigKey [] =
      u32le (crc32 bigKey) ++ (u32le 4294967296 ++ (u32le 0 ++ bigKey)) := by
    unfold encode
    rw [List.append_nil, hlen, List.length_nil, List.append_nil]
    simp [List.append_assoc]
  rw [hshape, process_record_header,
    Nat.mod_eq_of_lt (crc32_lt bigKey)] at h
  simp only [Nat.mod_self, Nat.zero_mod, Nat.add_zero, Nat.zero_add,
    List.take_zero, List.drop_zero, crc32_nil] at h
  by_cases h0 : crc32 bigKey = 0
  · rw [h0, if_neg (by simp)] at h
    rw [if_pos (by simp)] at h
    simp only [PRResult.ok.injEq, KeyValuePair.mk.injEq] at h
    have hbig : bigKey = [] := h.1.1.symm
    rw [hbig] at hlen
    simp at hlen
  · rw [if_pos (fun he => h0 he.symm)] at h
    simp at h

/-- C2: latest wins — after inserting `k` with `v1` and then `v2`,
`get k` returns `v2` and the index maps `k` to the offset of the `v2`
record (the old end-of-file after the `v1` record), not the `v1`
record's offset; and `load` over a log holding the `v1` record followed
by the `v2` record leaves the index pointing at the `v2` record. -/
theorem C2_latest_wins (s : Store) (k v1 v2 : ByteString)
    (h1 : k.length + v1.length < 4294967296)
    (h2 : k.length + v2.length < 4294967296) :
    get (insert (insert s k v1) k v2) k = .ok (some v2) ∧
    (insert (insert s k v1) k v2).index k =
      some (s.file.length + (encode k v1).length) ∧
    s.file.length + (encode k v1).length ≠ s.file.length ∧
    ∃ idx, load (encode k v1 ++ encode k v2) 0 emptyIndex = .ok idx ∧
      idx k = some (encode k v1).length := by
  refine ⟨get_insert_self (insert s k v1) k v2 h2, ?_, ?_, ?_⟩
  · simp [insert, insert_but_ignore_index, indexInsert, List.length_append]
  · have he := encode_length k v1
    omega
  · have e1 : process_record ((encode k v1 ++ encode k v2).drop 0) =
        .ok ⟨k, v1⟩ (encode k v2) := by
      rw [List.drop_zero]
      exact process_record_encode k v1 (encode k v2) h1
    have e2 : process_record
        ((encode k v1 ++ encode k v2).drop (encode k v1).length) =
        .ok ⟨k, v2⟩ [] := by
      rw [List.drop_left]
      have h0 := process_record_encode k v2 [] h2
      simpa using h0
    have e3 : process_record ((encode k v1 ++ encode k v2).drop
        ((encode k v1).length + (encode k v2).length)) = .eofErr := by
      rw [← List.length_append, List.drop_length]
      rfl
    rw [load_of_ok _ _ _ _ _ e1]
    have hp1 : 0 + (((encode k v1 ++ encode k v2).drop 0).length -
        (encode k v2).length) = (encode k v1).length := by
      simp [List.length_append]
    rw [hp1, load_of_ok _ _ _ _ _ e2]
    have hp2 : (encode k v1).length +
        (((encode k v1 ++ encode k v2).drop (encode k v1).length).length -
          ([] : ByteString).length) =
        (encode k v1).length + (encode k v2).length := by
      simp [List.length_append]
    rw [hp2, load_of_eof _ _ _ e3]
    refine ⟨_, rfl, ?_⟩
    simp [indexInsert]

/-- Witness for C2 at a concrete store, key and values. -/
theorem C2_latest_wins_witness :
    get (insert (insert (openStore []) [1] [2]) [1] [3]) [1] =
      .ok (some [3]) ∧
    (insert (insert (openStore []) [1] [2]) [1] [3]).index [1] =
      some ((openStore []).file.length + (encode [1] [2]).length) ∧
    (openStore []).file.length + (encode [1] [2]).length ≠
      (openStore []).file.length ∧
    ∃ idx, load (encode [1] [2] ++ encode [1] [3]) 0 emptyIndex = .ok idx ∧
      idx [1] = some (encode [1] [2]).length :=
  C2_latest_wins (openStore []) [1] [2] [3] (by decide) (by decide)

/-- C3 (amended): on a fully-read record whose stored checksum differs
from the CRC-32 of its key and value bytes, `process_record` panics
with a "data corruption" message identifying both the computed and the
stored checksum; the panic aborts `get` and `load` (modelled by the
dedicated `corruptionPanic` result, distinct from every `Ok` return and
from the recoverable `UnexpectedEof` error), so corrupted data is never
returned as valid and no empty or stale data is returned — but the
failure is a process-terminating panic, not a recoverable error value
as the claim states (see the counterexample). -/
theorem C3_corruption_is_panic (c : Nat) (k v rest : ByteString)
    (file : ByteString) (idx : Index) (key : ByteString) (pos : Nat)
    (hc : c < 4294967296) (hne : c ≠ crc32 (k ++ v))
    (hlen : k.length + v.length < 4294967296) :
    process_record (u32le c ++ u32le k.length ++ u32le v.length ++ k ++ v
        ++ rest) = .corruptionPanic (crc32 (k ++ v)) c ∧
    (idx key = some pos →
      file.drop pos = u32le c ++ u32le k.length ++ u32le v.length ++ k ++ v
        ++ rest →
      get ⟨file, idx⟩ key = .corruptionPanic (crc32 (k ++ v)) c) ∧
    load (u32le c ++ u32le k.length ++ u32le v.length ++ k ++ v ++ rest) 0
      emptyIndex = .corruptionPanic (crc32 (k ++ v)) c := by
  have hsum : (k.length + v.length) % 4294967296 = (k ++ v).length := by
    rw [List.length_append]
    exact Nat.mod_eq_of_lt hlen
  have hp2 : process_record (u32le c ++ (u32le k.length ++
      (u32le v.length ++ (k ++ (v ++ rest))))) =
      .corruptionPanic (crc32 (k ++ v)) c := by
    have hre : k ++ (v ++ rest) = (k ++ v) ++ rest :=
      (List.append_assoc k v rest).symm
    rw [process_record_header, Nat.mod_eq_of_lt hc,
      Nat.mod_eq_of_lt (show k.length < 4294967296 by omega),
      Nat.mod_eq_of_lt (show v.length < 4294967296 by omega),
      hsum, hre, List.take_left]
    rw [if_pos (Ne.symm hne)]
  have hp : process_record (u32le c ++ u32le k.length ++ u32le v.length ++
      k ++ v ++ rest) = .corruptionPanic (crc32 (k ++ v)) c := by
    have hshape : u32le c ++ u32le k.length ++ u32le v.length ++ k ++ v ++
        rest = u32le c ++ (u32le k.length ++ (u32le v.length ++
          (k ++ (v ++ rest)))) := by
      simp [List.append_assoc]
    rw [hshape]
    exact hp2
  refine ⟨hp, ?_, ?_⟩
  · intro hidx hdrop
    simp [get, hidx, hdrop, hp2]
  · apply load_of_corrupt
    rw [List.drop_zero]
    exact hp

/-- Witness for C3 (amended) at a concrete corrupt record (stored
checksum `1`, payload key `[0]` with empty value). -/
theorem C3_corruption_is_panic_witness :
    load (u32le 1 ++ u32le 1 ++ u32le 0 ++ [0] ++ [] ++ []) 0 emptyIndex =
      .corruptionPanic (crc32 ([0] ++ [])) 1 :=
  (C3_corruption_is_panic 1 [0] [] [] [] emptyIndex [0] 0 (by decide)
    (by decide) (by decide)).2.2

/-- C3 fails as stated: on the corrupt record the outcome of `get` is
the `corruptionPanic` abort — `panic!` terminates the process — not a
recoverable `io::Error` value returned to the caller (the only
recoverable error `get` can return besides `Ok` is `eofErr`). -/
theorem C3_counterexample :
    process_record corruptStream = .corruptionPanic 3523407757 0 ∧
    get corruptStore [0] = .corruptionPanic 3523407757 0 ∧
    get corruptStore [0] ≠ .eofErr ∧
    load corruptStream 0 emptyIndex = .corruptionPanic 3523407757 0 := by
  have hpr : process_record corruptStream = .corruptionPanic 3523407757 0 :=
    by decide
  refine ⟨hpr, by decide, by decide, ?_⟩
  apply load_of_corrupt
  rw [List.drop_zero]
  exact hpr

/-- C4 (amended): a stream ending mid-record after a partial header
produces the same `UnexpectedEof` signal as a cleanly exhausted stream,
and `load` treats it as clean end-of-log and terminates normally with
no error; a stream ending mid-payload is not reported as truncation
either: the partial payload is checksummed as if complete and the
decoder panics on the (then mismatching) checksum.  The claim's
distinguishable truncation error does not exist (see the
counterexample). -/
theorem C4_truncation_amended (s file : ByteString) (pos : Nat)
    (idx : Index) (c kl vl : Nat) (data : ByteString)
    (hs : s.length < 12) (hfile : file.length < pos + 12)
    (hc : c < 4294967296) (hkl : kl < 4294967296) (hvl : vl < 4294967296)
    (hshort : data.length < (kl + vl) % 4294967296)
    (hne : c ≠ crc32 data) :
    process_record s = .eofErr ∧
    load file pos idx = .ok idx ∧
    process_record (u32le c ++ u32le kl ++ u32le vl ++ data) =
      .corruptionPanic (crc32 data) c := by
  refine ⟨process_record_short s hs, ?_, ?_⟩
  · apply load_of_eof
    apply process_record_short
    have hd : (file.drop pos).length = file.length - pos := by simp
    omega
  · have hshape : u32le c ++ u32le kl ++ u32le vl ++ data =
        u32le c ++ (u32le kl ++ (u32le vl ++ data)) := by
      simp [List.append_assoc]
    rw [hshape, process_record_header, Nat.mod_eq_of_lt hc,
      Nat.mod_eq_of_lt hkl, Nat.mod_eq_of_lt hvl,
      List.take_of_length_le (le_of_lt hshort)]
    rw [if_pos (Ne.symm hne)]

/-- Witness for C4 (amended): a 1-byte stream, a 3-byte file, and a
header promising 1 payload byte with none present. -/
theorem C4_truncation_amended_witness :
    process_record [0] = .eofErr ∧
    load [1, 2, 3] 0 emptyIndex = .ok emptyIndex ∧
    process_record (u32le 1 ++ u32le 1 ++ u32le 0 ++ []) =
      .corruptionPanic (crc32 []) 1 :=
  C4_truncation_amended [0] [1, 2, 3] 0 emptyIndex 1 1 0 [] (by decide)
    (by decide) (by decide) (by decide) (by decide) (by decide) (by decide)

/-- C4 fails as stated: a 5-byte stream (partial header) yields the
very same `UnexpectedEof` result as the empty stream — there is no
distinguishable truncation error — and `load` on such a file
terminates normally with `Ok` instead of propagating a failure. -/
theorem C4_truncation_counterexample :
    process_record [0, 0, 0, 0, 0] = .eofErr ∧
    process_record ([] : ByteString) = .eofErr ∧
    load [0, 0, 0, 0, 0] 0 emptyIndex = .ok emptyIndex := by
  refine ⟨by decide, rfl, ?_⟩
  exact load_of_eof _ _ _ (by decide)

/-- C10: the record lengths are 32-bit — `encode` stores key and value
lengths modulo `2^32` (`as u32` casts), `process_record` reads the
payload as the wrapping 32-bit sum of the two length fields (shown by
the header `0xFFFFFFFF + 1 ≡ 0` reading zero payload bytes and then
panicking in `split_off`), and the round-trip is guaranteed under the
precondition that key length plus value length is below `2^32`. -/
theorem C10_u32_wrapping (k v : ByteString)
    (hlen : k.length + v.length < 4294967296) :
    encode k v = u32le (crc32 (k ++ v)) ++ u32le (k.length % 4294967296) ++
      u32le (v.length % 4294967296) ++ k ++ v ∧
    (∀ n : Nat, u32le n = u32le (n % 4294967296)) ∧
    process_record (u32le 0 ++ u32le 4294967295 ++ u32le 1 ++ [7]) =
      .splitPanic ∧
    process_record (encode k v) = .ok ⟨k, v⟩ [] := by
  refine ⟨?_, u32le_mod, by decide, ?_⟩
  · rw [← u32le_mod k.length, ← u32le_mod v.length]
    rfl
  · have h0 := process_record_encode k v [] hlen
    simpa using h0

/-- Witness for C10 at a concrete key and value. -/
theorem C10_u32_wrapping_witness :
    process_record (encode [1] [2]) = .ok ⟨[1], [2]⟩ [] :=
  (C10_u32_wrapping [1] [2] (by decide)).2.2.2

/-- C5: `delete(k)` appends a record for `k` with a zero-length value —
at the codec level just a record whose value is empty — and a
subsequent `get(k)` returns `Some` of the empty byte sequence, not
"key absent". -/
theorem C5_delete_get_empty (s : Store) (k : ByteString)
    (h : k.length < 4294967296) :
    delete s k = insert s k [] ∧
    (delete s k).file = s.file ++ encode k [] ∧
    get (delete s k) k = .ok (some []) := by
  refine ⟨rfl, rfl, ?_⟩
  show get (insert s k []) k = .ok (some [])
  exact get_insert_self s k [] (by simpa using h)

/-- Witness for C5 at a concrete store and key. -/
theorem C5_delete_get_empty_witness :
    get (delete (openStore []) [5]) [5] = .ok (some []) :=
  (C5_delete_get_empty (openStore []) [5] (by decide)).2.2

/-- C7: `find` decodes starting from the current read cursor (not
offset 0) and examines only the first record there: it returns that
record if its value equals the target, returns "not found" as soon as
that first record's value differs — even when a later record matches —
and returns "not found" on clean end-of-log. -/
theorem C7_find_checks_only_first (file : ByteString)
    (k1 v1 k2 t : ByteString)
    (h1 : k1.length + v1.length < 4294967296)
    (h2 : k2.length + t.length < 4294967296)
    (hne : v1 ≠ t) :
    find (encode k1 v1 ++ encode k2 t) 0 t = .notFound ∧
    find (encode k1 v1 ++ encode k2 t) (encode k1 v1).length t =
      .found ⟨k2, t⟩ ∧
    find file file.length t = .notFound := by
  refine ⟨?_, ?_, ?_⟩
  · have e := process_record_encode k1 v1 (encode k2 t) h1
    simp [find, e, hne]
  · have e2 : process_record (encode k2 t) = .ok ⟨k2, t⟩ [] := by
      have h0 := process_record_encode k2 t [] h2
      simpa using h0
    simp [find, e2]
  · have e3 : process_record ([] : ByteString) = .eofErr := rfl
    simp [find, e3]

/-- Witness for C7 at concrete records (first record value `[9]` does
not match target `[4]`, the second does). -/
theorem C7_find_checks_only_first_witness :
    find (encode [1] [9] ++ encode [3] [4]) 0 [4] = .notFound ∧
    find (encode [1] [9] ++ encode [3] [4]) (encode [1] [9]).length [4] =
      .found ⟨[3], [4]⟩ ∧
    find [7] ([7] : ByteString).length [4] = .notFound :=
  C7_find_checks_only_first [7] [1] [9] [3] [4] (by decide) (by decide)
    (by decide)

/-- C6: `update(key, value)` is semantically identical to
`insert(key, value)`: both leave the store with the encoded record
appended at the old end-of-file and the index entry for `key` pointing
at that record's offset. -/
theorem C6_update_is_insert (s : Store) (k v : ByteString) :
    update s k v = insert s k v ∧
    (update s k v).file = s.file ++ encode k v ∧
    (update s k v).index = indexInsert s.index k s.file.length :=
  ⟨rfl, rfl, rfl⟩

/-- C8: on an empty, freshly created file, `load` terminates normally
with no error and leaves the index empty: the first header read hits
the `UnexpectedEof` that the loop treats as clean end-of-log. -/
theorem C8_empty_load :
    load (openStore []).file 0 (openStore []).index =
      .ok (openStore []).index ∧
    ∀ k, (openStore []).index k = none := by
  constructor
  · exact load_of_eof _ _ _ (by decide)
  · intro k
    rfl

/-- C9: a successful `insert` changes nothing except appending the
record at the old end-of-file and repointing the index entry for the
inserted key: every other key's index entry and every byte below the
previous end-of-file are unchanged. -/
theorem C9_insert_frame (s : Store) (k v k' : ByteString) (h : k' ≠ k) :
    (insert s k v).index k' = s.index k' ∧
    (insert s k v).file.take s.file.length = s.file ∧
    (insert s k v).file = s.file ++ encode k v ∧
    (insert s k v).index k = some s.file.length := by
  refine ⟨?_, ?_, rfl, ?_⟩
  · simp [insert, insert_but_ignore_index, indexInsert, h]
  · exact List.take_left _ _
  · simp [insert, insert_but_ignore_index, indexInsert]

/-- Witness for C9 at a concrete store and keys. -/
theorem C9_insert_frame_witness :
    (insert (openStore []) [2] [7]).index [1] = (openStore []).index [1] ∧
    (insert (openStore []) [2] [7]).file.take (openStore []).file.length =
      (openStore []).file ∧
    (insert (openStore []) [2] [7]).file =
      (openStore []).file ++ encode [2] [7] ∧
    (insert (openStore []) [2] [7]).index [2] =
      some (openStore []).file.length :=
  C9_insert_frame (openStore []) [2] [7] [1] (by decide)

end ActionKV
